import Mathlib

/-!
Verification development for the SnapValue appraisal job pipeline.

The mobile client helpers (`submitAppraisal`, `checkAppraisalStatus`,
`getAppraisalResult`, `submitAppraisalAndWait`) are embedded directly from
the React Native API module.  The server-side pipeline (IntakeGateway,
Scheduler/Queue, StepExecutor, Cancellation, BatchCoordinator,
StatusService) is present in the repository only through its documentation
and callers, so those components are modelled from the specification text,
as flagged on each definition.
-/

namespace SnapValue

/-- Job status values: submitted, queued, processing, completed, failed,
cancelled; terminal are completed, failed, cancelled. -/
inductive Status where
  | submitted
  | queued
  | processing
  | completed
  | failed
  | cancelled
deriving DecidableEq, Repr

/-- A status is terminal when it is completed, failed or cancelled. -/
def Status.isTerminal : Status → Bool
  | .completed => true
  | .failed => true
  | .cancelled => true
  | _ => false

/-- A status is cancellable when it is submitted, queued or processing. -/
def Status.isCancellable : Status → Bool
  | .submitted => true
  | .queued => true
  | .processing => true
  | _ => false

end SnapValue

namespace Client

/-!
Embedding of the mobile client API module (`axios`-based helpers).
Each helper wraps an HTTP call; on any failure (network error or HTTP
error response) it re-throws `new Error(prefix + error.message)`.
-/

/-- An axios error as observed inside a `catch` block: the message, and,
when the server answered with an HTTP error response, the status code and
response body. -/
structure AxiosError where
  message : String
  responseStatus : Option Nat
  responseData : Option String
deriving DecidableEq, Repr

/-- The outcome of one axios request: the parsed response data, or an
axios error. -/
inductive AxiosOutcome (α : Type) where
  | success (data : α)
  | failure (err : AxiosError)
deriving DecidableEq, Repr

/-- A plain JavaScript `Error` carrying only a message, as produced by
`new Error(...)` in the client helpers. -/
structure JsError where
  message : String
deriving DecidableEq, Repr

/-- Response data of `POST /api/v1/appraisal/submit`. -/
structure SubmissionData where
  appraisal_id : String
deriving DecidableEq, Repr

/-- Response data of `GET /api/v1/appraisal/:id/status`. -/
structure StatusData where
  status : String
deriving DecidableEq, Repr

/-- Response data of `GET /api/v1/appraisal/:id/result`. -/
structure ResultData where
  payload : String
deriving DecidableEq, Repr

/-- Helper submitAppraisal: posts the form data and returns `response.data`;
on failure throws `Error("Failed to submit appraisal: " + error.message)`. -/
def submitAppraisal (outcome : AxiosOutcome SubmissionData) :
    Except JsError SubmissionData :=
  match outcome with
  | .success d => .ok d
  | .failure e => .error ⟨"Failed to submit appraisal: " ++ e.message⟩

/-- Helper checkAppraisalStatus: gets the status endpoint and returns
`response.data`; on failure throws
`Error("Failed to check appraisal status: " + error.message)`. -/
def checkAppraisalStatus (outcome : AxiosOutcome StatusData) :
    Except JsError StatusData :=
  match outcome with
  | .success d => .ok d
  | .failure e => .error ⟨"Failed to check appraisal status: " ++ e.message⟩

/-- Helper getAppraisalResult: gets the result endpoint and returns
`response.data`; on failure throws
`Error("Failed to get appraisal result: " + error.message)`. -/
def getAppraisalResult (outcome : AxiosOutcome ResultData) :
    Except JsError ResultData :=
  match outcome with
  | .failure e => .error ⟨"Failed to get appraisal result: " ++ e.message⟩
  | .success d => .ok d

/-- Default `maxAttempts` of `submitAppraisalAndWait`. -/
def defaultMaxAttempts : Nat := 15

/-- Default `intervalMs` of `submitAppraisalAndWait`. -/
def defaultIntervalMs : Nat := 2000

/-- The timeout error thrown by `submitAppraisalAndWait` once
`maxAttempts` polls have all been made without observing `completed`. -/
def timeoutError : JsError := ⟨"Appraisal timed out – please try again"⟩

/-- Accounting of one run of the polling loop: the outcome, the number of
status polls performed, and the list of waits (in ms) slept between
polls. -/
structure PollRun where
  outcome : Except JsError ResultData
  polls : Nat
  waits : List Nat
deriving Repr

/-- The `while (attempts < maxAttempts)` loop of `submitAppraisalAndWait`:
poll the status; if it is exactly `"completed"`, fetch and return the
result; otherwise sleep `intervalMs` and retry; once attempts are
exhausted, throw `timeoutError`.  `statusAt n` is the status string the
n-th poll returns and `res` the result the server would deliver. -/
def pollLoop (statusAt : Nat → String) (res : ResultData)
    (intervalMs : Nat) : Nat → Nat → PollRun
  | _, 0 => ⟨.error timeoutError, 0, []⟩
  | attempts, fuel + 1 =>
    if statusAt attempts = "completed" then
      ⟨.ok res, 1, []⟩
    else
      let rest := pollLoop statusAt res intervalMs (attempts + 1) fuel
      ⟨rest.outcome, rest.polls + 1, intervalMs :: rest.waits⟩

/-- Helper submitAppraisalAndWait: submit, then poll in a bounded loop
with at most `maxAttempts` status checks at a fixed `intervalMs`.  A
failed submission propagates its error and performs no poll. -/
def submitAppraisalAndWait (submitOutcome : AxiosOutcome SubmissionData)
    (statusAt : Nat → String) (res : ResultData)
    (maxAttempts : Nat := defaultMaxAttempts)
    (intervalMs : Nat := defaultIntervalMs) : PollRun :=
  match submitAppraisal submitOutcome with
  | .error e => ⟨.error e, 0, []⟩
  | .ok _ => pollLoop statusAt res intervalMs 0 maxAttempts

end Client

namespace Pipeline

open SnapValue

/-!
Server-side pipeline model.  The repository ships only the documentation
of these components (backend/README.md, SCRIPTS.md) and their callers;
the implementation files are not present, so every definition below is
modelled from the specification text and flagged as such.
-/

/-- Job priority: low, normal, high, urgent; default normal. -/
inductive Priority where
  | low
  | normal
  | high
  | urgent
deriving DecidableEq, Repr

/-- Numeric rank of a priority; higher rank is served first. -/
def Priority.rank : Priority → Nat
  | .low => 0
  | .normal => 1
  | .high => 2
  | .urgent => 3

/-- Error taxonomy of the REST surface: ValidationError, NotFoundError,
ConflictError. -/
inductive ApiError where
  | validationError (msg : String)
  | notFoundError (msg : String)
  | conflictError (msg : String)
deriving DecidableEq, Repr

/-- Modelled from the spec: a Job record owned by the JobStore (the
implementation of the JobStore is not in the repository).  Fields beyond
what the verified claims need are omitted. -/
structure Job where
  id : Nat
  correlationId : Nat
  status : Status
  priority : Priority
  result : Option String
  jobError : Option String
deriving DecidableEq, Repr

/-- Modelled from the spec: the authoritative store of job records plus
the scheduler's queue of job ids, with a counter for id generation. -/
structure Store where
  jobs : List Job
  queue : List Nat
  nextId : Nat
deriving DecidableEq, Repr

/-- Look a job up by id. -/
def findJob (s : Store) (jid : Nat) : Option Job :=
  s.jobs.find? (fun j => j.id == jid)

/-- Replace the status of the job with the given id. -/
def setJobStatus (jobs : List Job) (jid : Nat) (st : Status) : List Job :=
  jobs.map (fun j => if j.id = jid then { j with status := st } else j)

/-- A submission request after type checking: at most one image file, at
most one image URL, an optional enum-valid priority, free-form hints. -/
structure SubmitRequest where
  imageFile : Option String
  imageUrl : Option String
  priority : Option Priority
  category : Option String
  options : Option String
deriving DecidableEq, Repr

/-- The admission constraint: exactly one of image file and image URL is
present. -/
def exactlyOneImage (r : SubmitRequest) : Bool :=
  xor r.imageFile.isSome r.imageUrl.isSome

/-- Fixed per-job step time budget in minutes used for the completion
estimate. -/
def perJobMinutes : Nat := 3

/-- Estimated completion minutes, growing with the current queue depth. -/
def estimatedCompletion (s : Store) : Nat :=
  (s.queue.length + 1) * perJobMinutes

/-- The handle returned synchronously by a successful submission. -/
structure JobHandle where
  appraisalId : Nat
  correlationId : Nat
  status : Status
  estimatedCompletionMinutes : Nat
deriving DecidableEq, Repr

/-- Modelled from the spec: IntakeGateway.submit (the implementation is
not in the repository).  Exactly one of image file and image URL must be
present; on violation it fails synchronously with a ValidationError and
the store is untouched; on success it creates one Job in status
submitted, one queue entry, and returns the handle. -/
def submit (s : Store) (r : SubmitRequest) : Except ApiError JobHandle × Store :=
  if exactlyOneImage r then
    let j : Job :=
      { id := s.nextId
        correlationId := s.nextId
        status := .submitted
        priority := r.priority.getD .normal
        result := none
        jobError := none }
    (.ok { appraisalId := j.id
           correlationId := j.correlationId
           status := .submitted
           estimatedCompletionMinutes := estimatedCompletion s },
     { jobs := s.jobs ++ [j], queue := s.queue ++ [j.id], nextId := s.nextId + 1 })
  else
    (.error (.validationError "exactly one of image file and image URL required"), s)

/-- Modelled from the spec: cancel(job_id) (the implementation is not in
the repository).  Allowed only while the status is submitted, queued or
processing; a terminal job yields a ConflictError and the store is
untouched; otherwise the job atomically transitions to cancelled. -/
def cancel (s : Store) (jid : Nat) : Except ApiError Status × Store :=
  match findJob s jid with
  | none => (.error (.notFoundError "unknown job"), s)
  | some j =>
    if j.status.isCancellable then
      (.ok .cancelled, { s with jobs := setJobStatus s.jobs jid .cancelled })
    else
      (.error (.conflictError "already terminal"), s)

/-- Modelled from the spec: StatusService.get_result (the implementation
is not in the repository).  Returns the stored result only when the job
status is completed; otherwise fails with a ConflictError naming the job
not completed. -/
def get_result (s : Store) (jid : Nat) : Except ApiError (Option String) :=
  match findJob s jid with
  | none => .error (.notFoundError "unknown job")
  | some j =>
    if j.status = .completed then .ok j.result
    else .error (.conflictError "not completed")

/-- Aggregate status of a batch. -/
inductive BatchStatus where
  | completed
  | failed
  | inProgress
deriving DecidableEq, Repr

/-- Modelled from the spec: BatchCoordinator.get_batch_status as a pure
read over the member job statuses (the implementation is not in the
repository).  Completed iff every member completed; failed iff every
member is terminal and at least one failed; in progress otherwise. -/
def aggregateStatus (members : List Status) : BatchStatus :=
  if members.all (fun s => s == .completed) then .completed
  else if members.all (fun s => s.isTerminal) && members.any (fun s => s == .failed) then
    .failed
  else .inProgress

end Pipeline

namespace Executor

open SnapValue

/-!
Modelled from the spec: the StepExecutor worker loop (the implementation
is not in the repository).  A capability call outcome is classified as a
success, a transient error (timeout, external service unavailable) or a
permanent error (malformed input, unsupported category).
-/

/-- Outcome of one external capability call. -/
inductive CapOutcome where
  | ok (details : String)
  | transientErr
  | permanentErr
deriving DecidableEq, Repr

/-- Classified error recorded on a failed job: ExternalServiceError when
transient retries exhausted, ProcessingError for a permanent failure. -/
inductive StepError where
  | externalServiceError
  | processingError
deriving DecidableEq, Repr

/-- Maximum number of additional retries for a transient step failure. -/
def maxRetries : Nat := 2

/-- Fixed backoff (ms) slept before retrying after the given attempt:
1 s after the first attempt, 3 s after the second. -/
def backoffMs : Nat → Nat
  | 0 => 1000
  | _ => 3000

/-- Accounting of the attempts made for one step: the classified result,
how many capability calls were made, and the backoff waits slept. -/
structure AttemptRun where
  result : Except StepError String
  attempts : Nat
  waits : List Nat
deriving Repr

/-- Modelled from the spec: run one step's capability, retrying a
transient failure while retries remain, sleeping the fixed backoff
between attempts.  `cap n` is the outcome of the n-th capability call
for this step. -/
def runAttempts (cap : Nat → CapOutcome) : Nat → Nat → AttemptRun
  | attempt, 0 =>
    match cap attempt with
    | .ok d => ⟨.ok d, 1, []⟩
    | .permanentErr => ⟨.error .processingError, 1, []⟩
    | .transientErr => ⟨.error .externalServiceError, 1, []⟩
  | attempt, r + 1 =>
    match cap attempt with
    | .ok d => ⟨.ok d, 1, []⟩
    | .permanentErr => ⟨.error .processingError, 1, []⟩
    | .transientErr =>
      let rest := runAttempts cap (attempt + 1) r
      ⟨rest.result, rest.attempts + 1, backoffMs attempt :: rest.waits⟩

/-- Run one step with the policy of up to `maxRetries` additional
attempts. -/
def runStep (cap : Nat → CapOutcome) : AttemptRun :=
  runAttempts cap 0 maxRetries

/-- Final state of a step after the pipeline ran. -/
inductive StepFinal where
  | completedS (details : String)
  | failedS
  | pendingS
deriving DecidableEq, Repr

/-- Modelled from the spec: run the ordered steps starting at index
`stepIdx`, `n` steps remaining.  On a step failure the remaining steps
are aborted and stay pending, and the classified error is recorded.
`caps i k` is the outcome of the k-th capability call of step i. -/
def runSteps (caps : Nat → Nat → CapOutcome) (stepIdx : Nat) :
    Nat → List StepFinal × Option StepError
  | 0 => ([], none)
  | n + 1 =>
    match (runStep (caps stepIdx)).result with
    | .ok d =>
      let rest := runSteps caps (stepIdx + 1) n
      (StepFinal.completedS d :: rest.1, rest.2)
    | .error e => (StepFinal.failedS :: List.replicate n .pendingS, some e)

/-- Outcome of one claimed job's processing: the per-step final states,
the terminal job status, and the recorded classified error. -/
structure PipelineRun where
  stepResults : List StepFinal
  jobStatus : Status
  jobError : Option StepError
deriving Repr

/-- Modelled from the spec: execute a claimed job's whole fixed pipeline
of `numSteps` steps and finalize: processing transitions to failed with
the classified error when any step failed, to completed otherwise. -/
def runPipeline (caps : Nat → Nat → CapOutcome) (numSteps : Nat) : PipelineRun :=
  let r := runSteps caps 0 numSteps
  { stepResults := r.1
    jobStatus := if r.2.isSome then .failed else .completed
    jobError := r.2 }

end Executor

namespace Progress

open SnapValue

/-!
Modelled from the spec: the per-job state machine that the JobStore's
atomic transitions realize (the implementation is not in the
repository).  A job carries its status, its fixed ordered step sequence
and the recorded progress percentage.
-/

/-- Per-step state inside a job record. -/
inductive StepState where
  | pendingP
  | runningP
  | completedP
  | failedP
deriving DecidableEq, Repr

/-- Number of completed steps in a step sequence. -/
def completedCount : List StepState → Nat
  | [] => 0
  | x :: rest => completedCount rest + (if x = .completedP then 1 else 0)

/-- Progress formula: completed steps over total steps, times 100
(integer division; 0 for an empty step list). -/
def progressOf (steps : List StepState) : Nat :=
  completedCount steps * 100 / steps.length

/-- A job projected to the fields the progress claims concern. -/
structure PJob where
  status : Status
  steps : List StepState
  progressPercentage : Nat
deriving DecidableEq, Repr

/-- A job record is consistent when its recorded progress percentage
equals the progress formula over its steps. -/
def Consistent (j : PJob) : Prop :=
  j.progressPercentage = progressOf j.steps

instance (j : PJob) : Decidable (Consistent j) := by
  unfold Consistent; infer_instance

/-- Modelled from the spec: the atomic transitions the JobStore permits
on one job.  Terminal jobs admit no transition; step completion updates
the recorded progress to the formula. -/
inductive JobTr : PJob → PJob → Prop where
  | enqueue (steps : List StepState) (p : Nat) :
      JobTr ⟨.submitted, steps, p⟩ ⟨.queued, steps, p⟩
  | claim (steps : List StepState) (p : Nat) :
      JobTr ⟨.queued, steps, p⟩ ⟨.processing, steps, p⟩
  | startStep (steps : List StepState) (p i : Nat)
      (h : steps.get? i = some .pendingP) :
      JobTr ⟨.processing, steps, p⟩ ⟨.processing, steps.set i .runningP, p⟩
  | completeStep (steps : List StepState) (p i : Nat)
      (h : steps.get? i = some .runningP) :
      JobTr ⟨.processing, steps, p⟩
        ⟨.processing, steps.set i .completedP, progressOf (steps.set i .completedP)⟩
  | failStep (steps : List StepState) (p i : Nat)
      (h : steps.get? i = some .runningP) :
      JobTr ⟨.processing, steps, p⟩ ⟨.failed, steps.set i .failedP, p⟩
  | finish (steps : List StepState) (p : Nat)
      (h : ∀ x ∈ steps, x = StepState.completedP) :
      JobTr ⟨.processing, steps, p⟩ ⟨.completed, steps, p⟩
  | cancelTr (st : Status) (steps : List StepState) (p : Nat)
      (h : st.isCancellable = true) :
      JobTr ⟨st, steps, p⟩ ⟨.cancelled, steps, p⟩

/-- An observation trace of one job: at each tick the job either takes
one atomic transition or is unchanged. -/
def JobTrace (f : Nat → PJob) : Prop :=
  ∀ n, JobTr (f n) (f (n + 1)) ∨ f (n + 1) = f n

end Progress

namespace Sched

open SnapValue
open Pipeline (Priority)

/-!
Modelled from the spec: the Scheduler/Queue with its atomic claim_next
operation, and the system-level events that mutate job status (the
implementation is not in the repository).  Each event is one atomic
operation on the shared state, so an interleaving of concurrent workers
is a sequence of events.
-/

/-- One queue entry: job id, priority, enqueue timestamp; exists only
while the job is queued (stale entries are dropped lazily at pop). -/
structure QEntry where
  jobId : Nat
  priority : Priority
  enqueuedAt : Nat
deriving DecidableEq, Repr

/-- The shared scheduler state: each job's status (none when the job does
not exist yet) and the queue. -/
structure SchedState where
  jobStatus : Nat → Option Status
  queue : List QEntry

/-- An entry is eligible for claiming when its job is still queued. -/
def eligible (s : SchedState) (e : QEntry) : Bool :=
  s.jobStatus e.jobId == some .queued

/-- Entry `a` is served strictly before entry `b`: higher priority rank
first, ties broken FIFO by earlier enqueue time. -/
def Preferred (a b : QEntry) : Prop :=
  b.priority.rank < a.priority.rank ∨
    (a.priority.rank = b.priority.rank ∧ a.enqueuedAt < b.enqueuedAt)

instance (a b : QEntry) : Decidable (Preferred a b) := by
  unfold Preferred; infer_instance

/-- Pick the best entry of a list under `Preferred` (left-biased on full
ties). -/
def pickBest : List QEntry → Option QEntry
  | [] => none
  | e :: es =>
    match pickBest es with
    | none => some e
    | some b => if Preferred b e then some b else some e

/-- Modelled from the spec: claim_next (the implementation is not in the
repository).  In one atomic operation: drop stale entries, pop the
highest-priority oldest-enqueued entry whose job is still queued,
transition that job queued to processing; empty when no eligible entry
exists. -/
def claimNext (s : SchedState) : Option (QEntry × SchedState) :=
  match pickBest (s.queue.filter (eligible s)) with
  | none => none
  | some e =>
    some (e,
      { jobStatus := fun j => if j = e.jobId then some .processing else s.jobStatus j
        queue := (s.queue.filter (eligible s)).filter (fun q => q.jobId ≠ e.jobId) })

/-- System events; each is one atomic operation on the shared state. -/
inductive Event where
  | create (j : Nat)
  | enqueueEv (j : Nat) (p : Priority) (t : Nat)
  | claim (w : Nat) (j : Nat)
  | complete (j : Nat)
  | fail (j : Nat)
  | cancelEv (j : Nat)
deriving DecidableEq, Repr

/-- Update one job's status in the status map. -/
def setStatus (f : Nat → Option Status) (j : Nat) (st : Status) :
    Nat → Option Status :=
  fun k => if k = j then some st else f k

/-- Modelled from the spec: the atomic steps of the system.  A claim by
worker `w` is exactly one `claimNext` call. -/
inductive SchedStep : SchedState → Event → SchedState → Prop where
  | create (s : SchedState) (j : Nat) (h : s.jobStatus j = none) :
      SchedStep s (.create j) ⟨setStatus s.jobStatus j .submitted, s.queue⟩
  | enqueueEv (s : SchedState) (j : Nat) (p : Priority) (t : Nat)
      (h : s.jobStatus j = some .submitted) :
      SchedStep s (.enqueueEv j p t)
        ⟨setStatus s.jobStatus j .queued, s.queue ++ [⟨j, p, t⟩]⟩
  | claim (s s' : SchedState) (w : Nat) (e : QEntry)
      (h : claimNext s = some (e, s')) :
      SchedStep s (.claim w e.jobId) s'
  | complete (s : SchedState) (j : Nat) (h : s.jobStatus j = some .processing) :
      SchedStep s (.complete j) ⟨setStatus s.jobStatus j .completed, s.queue⟩
  | fail (s : SchedState) (j : Nat) (h : s.jobStatus j = some .processing) :
      SchedStep s (.fail j) ⟨setStatus s.jobStatus j .failed, s.queue⟩
  | cancelEv (s : SchedState) (j : Nat) (st : Status)
      (h : s.jobStatus j = some st) (hc : st.isCancellable = true) :
      SchedStep s (.cancelEv j) ⟨setStatus s.jobStatus j .cancelled, s.queue⟩

/-- Reachability along a list of events. -/
inductive Reach : SchedState → List Event → SchedState → Prop where
  | nil (s : SchedState) : Reach s [] s
  | cons (s s' s'' : SchedState) (e : Event) (tr : List Event)
      (hs : SchedStep s e s') (hr : Reach s' tr s'') : Reach s (e :: tr) s''

/-- Whether an event is a claim of job `j` (by any worker). -/
def isClaimOf (j : Nat) : Event → Bool
  | .claim _ j' => j' == j
  | _ => false

/-- Number of claim events for job `j` in a trace. -/
def claimsOf (j : Nat) (tr : List Event) : Nat :=
  tr.countP (isClaimOf j)

/-- Rank of a job status along its lifecycle; every atomic step is
non-decreasing in this rank. -/
def statusRank : Option Status → Nat
  | none => 0
  | some .submitted => 1
  | some .queued => 2
  | some .processing => 3
  | some .completed => 4
  | some .failed => 4
  | some .cancelled => 4

end Sched

namespace Client

/-- The polling loop performs at most `fuel` status polls. -/
theorem pollLoop_polls_le (statusAt : Nat → String) (res : ResultData)
    (iv : Nat) : ∀ fuel a, (pollLoop statusAt res iv a fuel).polls ≤ fuel := by
  intro fuel
  induction fuel with
  | zero => intro a; simp [pollLoop]
  | succ n ih =>
    intro a
    by_cases h : statusAt a = "completed"
    · simp [pollLoop, h]
    · simp only [pollLoop, if_neg h]
      exact Nat.succ_le_succ (ih (a + 1))

/-- When no poll in range observes completed, the loop times out after
exactly `fuel` polls, sleeping the fixed interval after each. -/
theorem pollLoop_timeout (statusAt : Nat → String) (res : ResultData)
    (iv : Nat) : ∀ fuel a, (∀ k, k < fuel → statusAt (a + k) ≠ "completed") →
    pollLoop statusAt res iv a fuel =
      ⟨.error timeoutError, fuel, List.replicate fuel iv⟩ := by
  intro fuel
  induction fuel with
  | zero => intro a _; rfl
  | succ n ih =>
    intro a h
    have h0 : statusAt a ≠ "completed" := by
      have := h 0 (Nat.succ_pos n); simpa using this
    have hrest := ih (a + 1) (fun k hk => by
      have := h (k + 1) (Nat.succ_lt_succ hk)
      simpa [Nat.add_assoc, Nat.add_comm 1 k] using this)
    simp only [pollLoop, if_neg h0, hrest, List.replicate_succ]

/-- When the `i`-th poll is the first to observe completed and `i` is in
range, the loop returns the fetched result after `i + 1` polls. -/
theorem pollLoop_completed (statusAt : Nat → String) (res : ResultData)
    (iv : Nat) : ∀ i fuel a, i < fuel → statusAt (a + i) = "completed" →
    (∀ k, k < i → statusAt (a + k) ≠ "completed") →
    pollLoop statusAt res iv a fuel = ⟨.ok res, i + 1, List.replicate i iv⟩ := by
  intro i
  induction i with
  | zero =>
    intro fuel a hlt hc _
    match fuel, hlt with
    | n + 1, _ =>
      have hc' : statusAt a = "completed" := by simpa using hc
      simp [pollLoop, hc']
  | succ m ih =>
    intro fuel a hlt hc hmin
    match fuel, hlt with
    | n + 1, hlt =>
      have h0 : statusAt a ≠ "completed" := by
        have := hmin 0 (Nat.succ_pos m); simpa using this
      have hrest := ih n (a + 1) (Nat.lt_of_succ_lt_succ hlt)
        (by simpa [Nat.add_assoc, Nat.add_comm 1 m] using hc)
        (fun k hk => by
          have := hmin (k + 1) (Nat.succ_lt_succ hk)
          simpa [Nat.add_assoc, Nat.add_comm 1 k] using this)
      simp only [pollLoop, if_neg h0, hrest]
      rfl

/-- Every wait the loop sleeps equals the fixed interval. -/
theorem pollLoop_waits (statusAt : Nat → String) (res : ResultData)
    (iv : Nat) : ∀ fuel a, ∀ w ∈ (pollLoop statusAt res iv a fuel).waits,
    w = iv := by
  intro fuel
  induction fuel with
  | zero => intro a w hw; simp [pollLoop] at hw
  | succ n ih =>
    intro a w hw
    by_cases h : statusAt a = "completed"
    · simp [pollLoop, h] at hw
    · simp only [pollLoop, if_neg h, List.mem_cons] at hw
      rcases hw with hw | hw
      · exact hw
      · exact ih (a + 1) w hw

/-- C7: submitAppraisalAndWait is a bounded retry loop: it polls at most
maxAttempts times (default 15) at a fixed intervalMs (default 2000 ms),
returns the fetched result when a poll observes status completed, and
once attempts are exhausted surfaces the timeout error, independent of
any further result fetch — it never loops indefinitely. -/
theorem submitAppraisalAndWait_bounded_retry
    (statusAt : Nat → String) (res res' : ResultData) (d : SubmissionData)
    (maxAttempts intervalMs i : Nat) :
    (submitAppraisalAndWait (.success d) statusAt res maxAttempts intervalMs).polls
        ≤ maxAttempts ∧
    (i < maxAttempts → statusAt i = "completed" →
      (∀ k, k < i → statusAt k ≠ "completed") →
      (submitAppraisalAndWait (.success d) statusAt res maxAttempts intervalMs).outcome
          = .ok res ∧
      (submitAppraisalAndWait (.success d) statusAt res maxAttempts intervalMs).polls
          = i + 1) ∧
    ((∀ k, k < maxAttempts → statusAt k ≠ "completed") →
      submitAppraisalAndWait (.success d) statusAt res maxAttempts intervalMs
          = ⟨.error timeoutError, maxAttempts, List.replicate maxAttempts intervalMs⟩ ∧
      submitAppraisalAndWait (.success d) statusAt res maxAttempts intervalMs
          = submitAppraisalAndWait (.success d) statusAt res' maxAttempts intervalMs) ∧
    (∀ w ∈ (submitAppraisalAndWait (.success d) statusAt res maxAttempts intervalMs).waits,
      w = intervalMs) ∧
    (defaultMaxAttempts = 15 ∧ defaultIntervalMs = 2000) := by
  have hrun : submitAppraisalAndWait (.success d) statusAt res maxAttempts intervalMs
      = pollLoop statusAt res intervalMs 0 maxAttempts := rfl
  have hrun' : submitAppraisalAndWait (.success d) statusAt res' maxAttempts intervalMs
      = pollLoop statusAt res' intervalMs 0 maxAttempts := rfl
  refine ⟨?_, ?_, ?_, ?_, rfl, rfl⟩
  · rw [hrun]; exact pollLoop_polls_le statusAt res intervalMs maxAttempts 0
  · intro hi hc hmin
    rw [hrun, pollLoop_completed statusAt res intervalMs i maxAttempts 0 hi
      (by simpa using hc) (fun k hk => by simpa using hmin k hk)]
    exact ⟨rfl, rfl⟩
  · intro hnone
    constructor
    · rw [hrun, pollLoop_timeout statusAt res intervalMs maxAttempts 0
        (fun k hk => by simpa using hnone k hk)]
    · rw [hrun, hrun',
        pollLoop_timeout statusAt res intervalMs maxAttempts 0
          (fun k hk => by simpa using hnone k hk),
        pollLoop_timeout statusAt res' intervalMs maxAttempts 0
          (fun k hk => by simpa using hnone k hk)]
  · rw [hrun]; exact pollLoop_waits statusAt res intervalMs maxAttempts 0

/-- Witness for C7 at a concrete run: the second poll observes completed,
so the helper returns the fetched result after two polls, and the bound
and wait conjuncts hold. -/
theorem submitAppraisalAndWait_bounded_retry_witness :
    (submitAppraisalAndWait (.success ⟨"a1"⟩)
        (fun k => if k = 1 then "completed" else "processing") ⟨"r"⟩ 3 100).outcome
      = .ok ⟨"r"⟩ ∧
    (submitAppraisalAndWait (.success ⟨"a1"⟩)
        (fun k => if k = 1 then "completed" else "processing") ⟨"r"⟩ 3 100).polls
      = 2 ∧
    (submitAppraisalAndWait (.success ⟨"a1"⟩)
        (fun k => if k = 1 then "completed" else "processing") ⟨"r"⟩ 3 100).polls ≤ 3 := by
  have h := submitAppraisalAndWait_bounded_retry
    (fun k => if k = 1 then "completed" else "processing") ⟨"r"⟩ ⟨"r2"⟩ ⟨"a1"⟩ 3 100 1
  have hfirst := h.2.1 (by decide) (by decide)
    (fun k hk => by
      have hk0 : k = 0 := Nat.lt_one_iff.mp hk
      subst hk0; decide)
  exact ⟨hfirst.1, hfirst.2, h.1⟩

/-- C9: the loop exits early only on the exact string completed; when no
poll returns completed — even when polls return the terminal statuses
failed or cancelled — the helper polls all maxAttempts times and then
throws the timeout error, never the job's recorded error. -/
theorem submitAppraisalAndWait_ignores_terminal_statuses
    (statusAt : Nat → String) (res : ResultData) (d : SubmissionData)
    (maxAttempts intervalMs : Nat)
    (hnc : ∀ k, k < maxAttempts → statusAt k ≠ "completed") :
    (submitAppraisalAndWait (.success d) statusAt res maxAttempts intervalMs).outcome
        = .error timeoutError ∧
    (submitAppraisalAndWait (.success d) statusAt res maxAttempts intervalMs).polls
        = maxAttempts := by
  have hrun : submitAppraisalAndWait (.success d) statusAt res maxAttempts intervalMs
      = pollLoop statusAt res intervalMs 0 maxAttempts := rfl
  rw [hrun, pollLoop_timeout statusAt res intervalMs maxAttempts 0
    (fun k hk => by simpa using hnc k hk)]
  exact ⟨rfl, rfl⟩

/-- Witness for C9: the job reaches the terminal status failed at the
second poll, yet the helper still polls all 5 times and times out. -/
theorem submitAppraisalAndWait_ignores_terminal_statuses_witness :
    (submitAppraisalAndWait (.success ⟨"a1"⟩)
        (fun k => if k = 0 then "processing" else "failed") ⟨"r"⟩ 5 100).outcome
      = .error timeoutError ∧
    (submitAppraisalAndWait (.success ⟨"a1"⟩)
        (fun k => if k = 0 then "processing" else "failed") ⟨"r"⟩ 5 100).polls
      = 5 := by
  exact submitAppraisalAndWait_ignores_terminal_statuses
    (fun k => if k = 0 then "processing" else "failed") ⟨"r"⟩ ⟨"a1"⟩ 5 100
    (fun k _ => by
      by_cases h : k = 0
      · subst h; decide
      · simp only [if_neg h]; decide)

/-- C10: each client helper catches every failure and re-throws a plain
Error whose message is a fixed prefix plus the original message; two
failures with the same message but different HTTP status codes or bodies
are indistinguishable to the caller. -/
theorem client_helpers_flatten_errors (e1 e2 : AxiosError) :
    submitAppraisal (.failure e1)
        = .error ⟨"Failed to submit appraisal: " ++ e1.message⟩ ∧
    checkAppraisalStatus (.failure e1)
        = .error ⟨"Failed to check appraisal status: " ++ e1.message⟩ ∧
    getAppraisalResult (.failure e1)
        = .error ⟨"Failed to get appraisal result: " ++ e1.message⟩ ∧
    (e1.message = e2.message →
      submitAppraisal (.failure e1) = submitAppraisal (.failure e2) ∧
      checkAppraisalStatus (.failure e1) = checkAppraisalStatus (.failure e2) ∧
      getAppraisalResult (.failure e1) = getAppraisalResult (.failure e2)) := by
  refine ⟨rfl, rfl, rfl, fun h => ?_⟩
  simp [submitAppraisal, checkAppraisalStatus, getAppraisalResult, h]

/-- Witness for C10: a 400 validation failure and a 409 conflict failure
with the same axios message produce identical thrown errors. -/
theorem client_helpers_flatten_errors_witness :
    submitAppraisal (.failure ⟨"boom", some 400, some "validation"⟩)
        = submitAppraisal (.failure ⟨"boom", some 409, none⟩) ∧
    submitAppraisal (.failure ⟨"boom", some 400, some "validation"⟩)
        = .error ⟨"Failed to submit appraisal: " ++ "boom"⟩ := by
  have h := client_helpers_flatten_errors
    ⟨"boom", some 400, some "validation"⟩ ⟨"boom", some 409, none⟩
  exact ⟨(h.2.2.2 rfl).1, h.1⟩

end Client


namespace SnapValue

/-- A status is terminal exactly when it is not cancellable. -/
theorem Status.terminal_eq_not_cancellable (st : Status) :
    st.isTerminal = !st.isCancellable := by
  cases st <;> rfl

end SnapValue

namespace Pipeline

open SnapValue

/-- Updating one job's status commutes with looking that job up: the
found record is the old one with the new status. -/
theorem find_setJobStatus (jobs : List Job) (jid : Nat) (st : Status) :
    (setJobStatus jobs jid st).find? (fun j => j.id == jid)
      = (jobs.find? (fun j => j.id == jid)).map
          (fun j => { j with status := st }) := by
  induction jobs with
  | nil => rfl
  | cons a l ih =>
    simp only [setJobStatus, List.map_cons]
    by_cases h : a.id = jid
    · rw [if_pos h]
      rw [List.find?_cons_of_pos _ (by simp [h]),
        List.find?_cons_of_pos _ (by simp [h])]
      simp
    · rw [if_neg h]
      rw [List.find?_cons_of_neg _ (by simp [h]),
        List.find?_cons_of_neg _ (by simp [h])]
      simpa [setJobStatus] using ih

/-- After a successful cancel, the job reads back with status
cancelled. -/
theorem findJob_after_cancel (s : Store) (jid : Nat) (j : Job)
    (hf : findJob s jid = some j) (hc : j.status.isCancellable = true) :
    findJob ((cancel s jid).2) jid
      = some { j with status := Status.cancelled } := by
  have hs2 : (cancel s jid).2
      = { s with jobs := setJobStatus s.jobs jid .cancelled } := by
    simp [cancel, hf, hc]
  rw [hs2]
  show (setJobStatus s.jobs jid .cancelled).find? (fun x => x.id == jid)
      = some { j with status := Status.cancelled }
  rw [find_setJobStatus]
  rw [show s.jobs.find? (fun x => x.id == jid) = some j from hf]
  rfl

/-- C3: submit fails synchronously with ValidationError, creating no job
and enqueuing nothing, exactly when the request does not contain exactly
one of image reference and image URL; in particular a request with
neither is rejected and the store is unchanged. -/
theorem submit_validation (s : Store) (r : SubmitRequest) :
    ((∃ m, (submit s r).1 = .error (.validationError m))
        ↔ exactlyOneImage r = false) ∧
    (exactlyOneImage r = false → (submit s r).2 = s) ∧
    ((r.imageFile = none ∧ r.imageUrl = none) →
      (submit s r).1
          = .error (.validationError "exactly one of image file and image URL required") ∧
      (submit s r).2 = s) := by
  by_cases h : exactlyOneImage r = true
  · refine ⟨⟨fun ⟨m, hm⟩ => ?_, fun hf => ?_⟩, fun hf => ?_, fun ⟨h1, h2⟩ => ?_⟩
    · simp [submit, h] at hm
    · simp [h] at hf
    · simp [h] at hf
    · exfalso; simp [exactlyOneImage, h1, h2] at h
  · have hf : exactlyOneImage r = false := by
      cases hb : exactlyOneImage r
      · rfl
      · exact absurd hb h
    refine ⟨⟨fun _ => hf, fun _ => ?_⟩, fun _ => ?_, fun _ => ?_⟩
    · exact ⟨"exactly one of image file and image URL required", by simp [submit, hf]⟩
    · simp [submit, hf]
    · exact ⟨by simp [submit, hf], by simp [submit, hf]⟩

/-- Witness for C3: a request with neither an image file nor an image URL
is rejected with a ValidationError and the store is unchanged. -/
theorem submit_validation_witness :
    (submit ⟨[], [], 0⟩ ⟨none, none, none, none, none⟩).1
        = .error (.validationError "exactly one of image file and image URL required") ∧
    (submit ⟨[], [], 0⟩ ⟨none, none, none, none, none⟩).2 = ⟨[], [], 0⟩ := by
  exact (submit_validation ⟨[], [], 0⟩ ⟨none, none, none, none, none⟩).2.2 ⟨rfl, rfl⟩

/-- C5: cancel succeeds exactly when the status is submitted, queued or
processing; a terminal job yields a ConflictError with the store
unchanged, and a second cancel of the same job fails with a
ConflictError with no side effect. -/
theorem cancel_one_shot (s : Store) (jid : Nat) (j : Job)
    (hf : findJob s jid = some j) :
    ((cancel s jid).1 = .ok .cancelled ↔ j.status.isCancellable = true) ∧
    (j.status.isTerminal = true →
      (cancel s jid).1 = .error (.conflictError "already terminal") ∧
      (cancel s jid).2 = s) ∧
    (j.status.isCancellable = true →
      (cancel ((cancel s jid).2) jid).1 = .error (.conflictError "already terminal") ∧
      (cancel ((cancel s jid).2) jid).2 = (cancel s jid).2) := by
  refine ⟨⟨fun hok => ?_, fun hc => by simp [cancel, hf, hc]⟩, fun ht => ?_, fun hc => ?_⟩
  · cases hb : j.status.isCancellable
    · exfalso; simp [cancel, hf, hb] at hok
    · rfl
  · have hc : j.status.isCancellable = false := by
      rw [Status.terminal_eq_not_cancellable] at ht
      cases hb : j.status.isCancellable
      · rfl
      · rw [hb] at ht; exact absurd ht (by decide)
    exact ⟨by simp [cancel, hf, hc], by simp [cancel, hf, hc]⟩
  · have hf2 := findJob_after_cancel s jid j hf hc
    have hres : cancel ((cancel s jid).2) jid
        = (.error (.conflictError "already terminal"), (cancel s jid).2) := by
      generalize hgen : (cancel s jid).2 = s2 at hf2 ⊢
      unfold cancel
      rw [hf2]
      rfl
    exact ⟨by rw [hres], by rw [hres]⟩

/-- Witness for C5: cancelling a processing job succeeds; cancelling it a
second time fails with a ConflictError. -/
theorem cancel_one_shot_witness :
    (cancel ⟨[⟨1, 1, .processing, .normal, none, none⟩], [], 2⟩ 1).1
        = .ok .cancelled ∧
    (cancel ((cancel ⟨[⟨1, 1, .processing, .normal, none, none⟩], [], 2⟩ 1).2) 1).1
        = .error (.conflictError "already terminal") := by
  have h := cancel_one_shot ⟨[⟨1, 1, .processing, .normal, none, none⟩], [], 2⟩ 1
    ⟨1, 1, .processing, .normal, none, none⟩ rfl
  exact ⟨h.1.mpr rfl, (h.2.2 rfl).1⟩

/-- C8: get_result returns the stored result exactly when the job is
completed; any other status yields the typed not-completed ConflictError;
in particular after cancelling a processing job, get_result fails. -/
theorem get_result_requires_completed (s : Store) (jid : Nat) (j : Job)
    (hf : findJob s jid = some j) :
    ((∃ r, get_result s jid = .ok r) ↔ j.status = .completed) ∧
    (j.status ≠ .completed →
      get_result s jid = .error (.conflictError "not completed")) ∧
    (j.status = .processing →
      get_result ((cancel s jid).2) jid
          = .error (.conflictError "not completed")) := by
  refine ⟨⟨fun ⟨r, hr⟩ => ?_, fun hc => ⟨j.result, by simp [get_result, hf, hc]⟩⟩,
    fun hn => by simp [get_result, hf, hn], fun hp => ?_⟩
  · by_cases hb : j.status = Status.completed
    · exact hb
    · exfalso; simp [get_result, hf, hb] at hr
  · have hc : j.status.isCancellable = true := by rw [hp]; rfl
    have hf2 := findJob_after_cancel s jid j hf hc
    generalize hgen : (cancel s jid).2 = s2 at hf2 ⊢
    simp [get_result, hf2]

/-- Witness for C8: a completed job's result is readable, and a
processing job that gets cancelled yields the not-completed error. -/
theorem get_result_requires_completed_witness :
    (∃ r, get_result ⟨[⟨1, 1, .completed, .normal, some "v", none⟩], [], 2⟩ 1
        = .ok r) ∧
    get_result ((cancel ⟨[⟨2, 2, .processing, .normal, none, none⟩], [], 3⟩ 2).2) 2
        = .error (.conflictError "not completed") := by
  have h1 := get_result_requires_completed
    ⟨[⟨1, 1, .completed, .normal, some "v", none⟩], [], 2⟩ 1
    ⟨1, 1, .completed, .normal, some "v", none⟩ rfl
  have h2 := get_result_requires_completed
    ⟨[⟨2, 2, .processing, .normal, none, none⟩], [], 3⟩ 2
    ⟨2, 2, .processing, .normal, none, none⟩ rfl
  exact ⟨h1.1.mpr rfl, h2.2.2 rfl⟩

end Pipeline

namespace Pipeline

open SnapValue

/-- C6: the batch aggregate is completed iff every member is completed,
failed iff every member is terminal and at least one failed, and in
progress while any member is non-terminal; in particular for a 2-job
batch with one completion and one failure the aggregate is failed only
once both are terminal and in progress beforehand. -/
theorem aggregate_batch_status (ms : List Status) :
    (aggregateStatus ms = .completed ↔ ∀ x ∈ ms, x = Status.completed) ∧
    (aggregateStatus ms = .failed ↔
      ((∀ x ∈ ms, x.isTerminal = true) ∧ ∃ x ∈ ms, x = Status.failed)) ∧
    ((∃ x ∈ ms, x.isTerminal = false) → aggregateStatus ms = .inProgress) ∧
    (aggregateStatus [Status.completed, Status.processing] = .inProgress ∧
      aggregateStatus [Status.completed, Status.failed] = .failed ∧
      aggregateStatus [Status.failed, Status.processing] = .inProgress) := by
  by_cases h1 : ms.all (fun s => s == Status.completed) = true
  · have hall : ∀ x ∈ ms, x = Status.completed := by
      intro x hx
      exact eq_of_beq (List.all_eq_true.mp h1 x hx)
    have hv : aggregateStatus ms = .completed := by
      simp only [aggregateStatus, if_pos h1]
    refine ⟨⟨fun _ => hall, fun _ => hv⟩, ⟨fun hagg => ?_, fun ⟨_, x, hx, hxf⟩ => ?_⟩,
      fun ⟨x, hx, hxt⟩ => ?_, by decide⟩
    · rw [hv] at hagg; exact absurd hagg (by decide)
    · have := hall x hx; rw [hxf] at this; exact absurd this (by decide)
    · have := hall x hx; rw [this] at hxt; exact absurd hxt (by decide)
  · have h1f : ms.all (fun s => s == Status.completed) = false := by
      cases hb : ms.all (fun s => s == Status.completed)
      · rfl
      · exact absurd hb h1
    have hnall : ¬ ∀ x ∈ ms, x = Status.completed := by
      intro hall
      exact h1 (List.all_eq_true.mpr (fun x hx => by rw [hall x hx]; rfl))
    by_cases h2 : (ms.all (fun s => s.isTerminal) && ms.any (fun s => s == Status.failed))
        = true
    · obtain ⟨ha, hb⟩ := Bool.and_eq_true_iff.mp h2
      have hv : aggregateStatus ms = .failed := by
        simp only [aggregateStatus, h1f, h2]
        rfl
      refine ⟨⟨fun hagg => ?_, fun hall => absurd hall hnall⟩,
        ⟨fun _ => ?_, fun _ => hv⟩, fun ⟨x, hx, hxt⟩ => ?_, by decide⟩
      · rw [hv] at hagg; exact absurd hagg (by decide)
      · refine ⟨fun x hx => List.all_eq_true.mp ha x hx, ?_⟩
        obtain ⟨x, hx, hxf⟩ := List.any_eq_true.mp hb
        exact ⟨x, hx, eq_of_beq hxf⟩
      · have := List.all_eq_true.mp ha x hx; rw [this] at hxt
        exact absurd hxt (by decide)
    · have h2f : (ms.all (fun s => s.isTerminal) && ms.any (fun s => s == Status.failed))
          = false := by
        cases hb : (ms.all (fun s => s.isTerminal) && ms.any (fun s => s == Status.failed))
        · rfl
        · exact absurd hb h2
      have hv : aggregateStatus ms = .inProgress := by
        simp only [aggregateStatus, h1f, h2f]
        rfl
      refine ⟨⟨fun hagg => ?_, fun hall => absurd hall hnall⟩,
        ⟨fun hagg => ?_, fun ⟨hterm, x, hx, hxf⟩ => ?_⟩, fun _ => hv, by decide⟩
      · rw [hv] at hagg; exact absurd hagg (by decide)
      · rw [hv] at hagg; exact absurd hagg (by decide)
      · exfalso
        apply h2
        refine Bool.and_eq_true_iff.mpr ⟨?_, ?_⟩
        · exact List.all_eq_true.mpr (fun y hy => hterm y hy)
        · exact List.any_eq_true.mpr ⟨x, hx, by rw [hxf]; rfl⟩

/-- Witness for C6: a batch with one non-terminal member is in progress;
a 2-job batch with one completed and one failed member is failed. -/
theorem aggregate_batch_status_witness :
    aggregateStatus [Status.processing] = .inProgress ∧
    aggregateStatus [Status.completed, Status.failed] = .failed := by
  have h := aggregate_batch_status [Status.processing]
  exact ⟨h.2.2.1 ⟨Status.processing, by simp, rfl⟩, h.2.2.2.2.1⟩

end Pipeline

namespace Executor

open SnapValue

/-- A successful capability call ends the step immediately. -/
theorem runAttempts_ok (cap : Nat → CapOutcome) (a r : Nat) (d : String)
    (h : cap a = .ok d) : runAttempts cap a r = ⟨.ok d, 1, []⟩ := by
  cases r <;> simp [runAttempts, h]

/-- A permanent failure ends the step immediately with a
ProcessingError, regardless of retries left. -/
theorem runAttempts_perm (cap : Nat → CapOutcome) (a r : Nat)
    (h : cap a = .permanentErr) :
    runAttempts cap a r = ⟨.error .processingError, 1, []⟩ := by
  cases r <;> simp [runAttempts, h]

/-- A transient failure with no retry left ends the step with an
ExternalServiceError. -/
theorem runAttempts_trans_zero (cap : Nat → CapOutcome) (a : Nat)
    (h : cap a = .transientErr) :
    runAttempts cap a 0 = ⟨.error .externalServiceError, 1, []⟩ := by
  simp [runAttempts, h]

/-- A transient failure with retries left sleeps the fixed backoff and
retries. -/
theorem runAttempts_trans_succ (cap : Nat → CapOutcome) (a r : Nat)
    (h : cap a = .transientErr) :
    runAttempts cap a (r + 1)
      = ⟨(runAttempts cap (a + 1) r).result,
          (runAttempts cap (a + 1) r).attempts + 1,
          backoffMs a :: (runAttempts cap (a + 1) r).waits⟩ := by
  simp [runAttempts, h]

/-- At most `retriesLeft + 1` capability calls are ever made. -/
theorem runAttempts_attempts_le (cap : Nat → CapOutcome) :
    ∀ r a, (runAttempts cap a r).attempts ≤ r + 1 := by
  intro r
  induction r with
  | zero => intro a; cases h : cap a <;> simp [runAttempts, h]
  | succ n ih =>
    intro a
    cases h : cap a
    · simp [runAttempts, h]
    · rw [runAttempts_trans_succ cap a n h]
      exact Nat.succ_le_succ (ih (a + 1))
    · simp [runAttempts, h]

/-- Every wait slept between attempts is one of the fixed backoffs. -/
theorem runAttempts_waits_fixed (cap : Nat → CapOutcome) :
    ∀ r a, ∀ w ∈ (runAttempts cap a r).waits, w = 1000 ∨ w = 3000 := by
  intro r
  induction r with
  | zero => intro a w hw; cases h : cap a <;> simp [runAttempts, h] at hw
  | succ n ih =>
    intro a w hw
    cases h : cap a
    · simp [runAttempts, h] at hw
    · rw [runAttempts_trans_succ cap a n h] at hw
      rcases List.mem_cons.mp hw with hw | hw
      · subst hw
        cases a
        · exact Or.inl rfl
        · exact Or.inr rfl
      · exact ih (a + 1) w hw
    · simp [runAttempts, h] at hw

/-- A step whose first call succeeds runs no retry. -/
theorem runSteps_ok (caps : Nat → Nat → CapOutcome) (a n : Nat) (d : String)
    (h : (runStep (caps a)).result = .ok d) :
    runSteps caps a (n + 1)
      = (StepFinal.completedS d :: (runSteps caps (a + 1) n).1,
          (runSteps caps (a + 1) n).2) := by
  simp [runSteps, h]

/-- A failing step aborts: the remaining steps stay pending and the
classified error is recorded. -/
theorem runSteps_err (caps : Nat → Nat → CapOutcome) (a n : Nat)
    (e : StepError) (h : (runStep (caps a)).result = .error e) :
    runSteps caps a (n + 1)
      = (StepFinal.failedS :: List.replicate n .pendingS, some e) := by
  simp [runSteps, h]

/-- Positional statement of the abort policy over `runSteps`. -/
theorem runSteps_fail_at (caps : Nat → Nat → CapOutcome) (e : StepError) :
    ∀ k a n, k < n → (runStep (caps (a + k))).result = .error e →
    (∀ i, i < k → ∃ d, (runStep (caps (a + i))).result = .ok d) →
    (runSteps caps a n).1.get? k = some .failedS ∧
    (∀ m, k < m → m < n → (runSteps caps a n).1.get? m = some .pendingS) ∧
    (runSteps caps a n).2 = some e := by
  intro k
  induction k with
  | zero =>
    intro a n hk he _
    match n, hk with
    | n' + 1, _ =>
      have he' : (runStep (caps a)).result = .error e := by simpa using he
      rw [runSteps_err caps a n' e he']
      refine ⟨rfl, ?_, rfl⟩
      intro m hm0 hmn
      match m, hm0 with
      | m' + 1, _ =>
        show (List.replicate n' StepFinal.pendingS).get? m' = some .pendingS
        have hm' : m' < n' := Nat.lt_of_succ_lt_succ hmn
        simp [List.getElem?_replicate, hm']
  | succ kp ih =>
    intro a n hk he hok
    match n, hk with
    | n' + 1, hk =>
      obtain ⟨d0, hd0⟩ := hok 0 (Nat.succ_pos kp)
      have hd0' : (runStep (caps a)).result = .ok d0 := by simpa using hd0
      rw [runSteps_ok caps a n' d0 hd0']
      have ihr := ih (a + 1) n' (Nat.lt_of_succ_lt_succ hk)
        (by
          have : a + 1 + kp = a + (kp + 1) := by omega
          rw [this]; exact he)
        (fun i hi => by
          have h1 : a + 1 + i = a + (i + 1) := by omega
          rw [h1]; exact hok (i + 1) (Nat.succ_lt_succ hi))
      refine ⟨by simpa using ihr.1, ?_, ihr.2.2⟩
      intro m hm hmn
      match m, hm with
      | m' + 1, hm =>
        have := ihr.2.1 m' (Nat.lt_of_succ_lt_succ hm) (Nat.lt_of_succ_lt_succ hmn)
        simpa using this

/-- When every step's capability eventually succeeds within the retry
budget, the recorded error stays empty. -/
theorem runSteps_all_ok (caps : Nat → Nat → CapOutcome) :
    ∀ n a, (∀ i, i < n → ∃ d, (runStep (caps (a + i))).result = .ok d) →
    (runSteps caps a n).2 = none := by
  intro n
  induction n with
  | zero => intro a _; rfl
  | succ m ih =>
    intro a hok
    obtain ⟨d0, hd0⟩ := hok 0 (Nat.succ_pos m)
    have hd0' : (runStep (caps a)).result = .ok d0 := by simpa using hd0
    rw [runSteps_ok caps a m d0 hd0']
    exact ih (a + 1) (fun i hi => by
      have h1 : a + 1 + i = a + (i + 1) := by omega
      rw [h1]; exact hok (i + 1) (Nat.succ_lt_succ hi))

/-- C4: a transient step failure is retried up to 2 additional times with
the fixed 1 s / 3 s backoff; a permanent failure is never retried; once
retries exhaust or a permanent failure occurs the step fails, all
remaining steps are aborted, and the job finishes failed with the
classified error recorded; a step that recovers within the retry budget
surfaces no error and an all-recovering pipeline completes. -/
theorem executor_retry_and_abort (caps : Nat → Nat → CapOutcome)
    (cap : Nat → CapOutcome) (numSteps k : Nat) (e : StepError) (d : String) :
    (maxRetries = 2 ∧ (runStep cap).attempts ≤ maxRetries + 1) ∧
    (cap 0 = .permanentErr → runStep cap = ⟨.error .processingError, 1, []⟩) ∧
    (cap 0 = .transientErr → cap 1 = .transientErr → cap 2 = .transientErr →
      runStep cap = ⟨.error .externalServiceError, 3, [1000, 3000]⟩) ∧
    (cap 0 = .transientErr → cap 1 = .ok d →
      runStep cap = ⟨.ok d, 2, [1000]⟩) ∧
    (∀ w ∈ (runStep cap).waits, w = 1000 ∨ w = 3000) ∧
    (k < numSteps → (runStep (caps k)).result = .error e →
      (∀ i, i < k → ∃ d2, (runStep (caps i)).result = .ok d2) →
      (runPipeline caps numSteps).stepResults.get? k = some .failedS ∧
      (∀ m, k < m → m < numSteps →
        (runPipeline caps numSteps).stepResults.get? m = some .pendingS) ∧
      (runPipeline caps numSteps).jobStatus = .failed ∧
      (runPipeline caps numSteps).jobError = some e) ∧
    ((∀ i, i < numSteps → ∃ d2, (runStep (caps i)).result = .ok d2) →
      (runPipeline caps numSteps).jobStatus = .completed ∧
      (runPipeline caps numSteps).jobError = none) := by
  refine ⟨⟨rfl, ?_⟩, ?_, ?_, ?_, ?_, ?_, ?_⟩
  · exact runAttempts_attempts_le cap maxRetries 0
  · intro h0
    exact runAttempts_perm cap 0 maxRetries h0
  · intro h0 h1 h2
    show runAttempts cap 0 2 = _
    rw [runAttempts_trans_succ cap 0 1 h0]
    have h1' : cap (0 + 1) = CapOutcome.transientErr := h1
    rw [runAttempts_trans_succ cap (0 + 1) 0 h1']
    have h2' : cap (0 + 1 + 1) = CapOutcome.transientErr := h2
    rw [runAttempts_trans_zero cap (0 + 1 + 1) h2']
    rfl
  · intro h0 h1
    show runAttempts cap 0 2 = _
    rw [runAttempts_trans_succ cap 0 1 h0]
    have h1' : cap (0 + 1) = CapOutcome.ok d := h1
    rw [runAttempts_ok cap (0 + 1) 1 d h1']
    rfl
  · exact runAttempts_waits_fixed cap maxRetries 0
  · intro hk he hok
    have he' : (runStep (caps (0 + k))).result = .error e := by
      rw [Nat.zero_add]; exact he
    have hok' : ∀ i, i < k → ∃ d2, (runStep (caps (0 + i))).result = .ok d2 := by
      intro i hi; rw [Nat.zero_add]; exact hok i hi
    have h := runSteps_fail_at caps e k 0 numSteps hk he' hok'
    refine ⟨h.1, h.2.1, ?_, h.2.2⟩
    show (if (runSteps caps 0 numSteps).2.isSome then Status.failed else Status.completed)
        = Status.failed
    rw [h.2.2]
    rfl
  · intro hok
    have hok' : ∀ i, i < numSteps → ∃ d2, (runStep (caps (0 + i))).result = .ok d2 := by
      intro i hi; rw [Nat.zero_add]; exact hok i hi
    have hnone := runSteps_all_ok caps numSteps 0 hok'
    constructor
    · show (if (runSteps caps 0 numSteps).2.isSome then Status.failed else Status.completed)
          = Status.completed
      rw [hnone]
      rfl
    · exact hnone

/-- Witness for C4 on a concrete 3-step pipeline: step 0 succeeds, step 1
fails transiently then permanently, so step 1 is failed, step 2 never
runs, and the job is failed with the ProcessingError recorded; the
all-transient step retries exactly twice with the fixed backoff. -/
theorem executor_retry_and_abort_witness :
    (runPipeline
        (fun i k => if i = 0 then CapOutcome.ok "v0"
          else if i = 1 then (if k = 0 then CapOutcome.transientErr
            else CapOutcome.permanentErr)
          else CapOutcome.ok "x") 3).stepResults.get? 1 = some .failedS ∧
    (runPipeline
        (fun i k => if i = 0 then CapOutcome.ok "v0"
          else if i = 1 then (if k = 0 then CapOutcome.transientErr
            else CapOutcome.permanentErr)
          else CapOutcome.ok "x") 3).stepResults.get? 2 = some .pendingS ∧
    (runPipeline
        (fun i k => if i = 0 then CapOutcome.ok "v0"
          else if i = 1 then (if k = 0 then CapOutcome.transientErr
            else CapOutcome.permanentErr)
          else CapOutcome.ok "x") 3).jobStatus = .failed ∧
    (runPipeline
        (fun i k => if i = 0 then CapOutcome.ok "v0"
          else if i = 1 then (if k = 0 then CapOutcome.transientErr
            else CapOutcome.permanentErr)
          else CapOutcome.ok "x") 3).jobError = some .processingError ∧
    runStep (fun _ => CapOutcome.transientErr)
        = ⟨.error .externalServiceError, 3, [1000, 3000]⟩ := by
  have h := executor_retry_and_abort
    (fun i k => if i = 0 then CapOutcome.ok "v0"
      else if i = 1 then (if k = 0 then CapOutcome.transientErr
        else CapOutcome.permanentErr)
      else CapOutcome.ok "x")
    (fun _ => CapOutcome.transientErr) 3 1 StepError.processingError "v0"
  have habort := h.2.2.2.2.2.1 (by decide) rfl
    (fun i hi => by
      have hi0 : i = 0 := Nat.lt_one_iff.mp hi
      subst hi0
      exact ⟨"v0", rfl⟩)
  refine ⟨habort.1, habort.2.1 2 (by decide) (by decide), habort.2.2.1, habort.2.2.2, ?_⟩
  exact h.2.2.1 rfl rfl rfl

end Executor

namespace Progress

open SnapValue

/-- Setting a non-completed slot to a non-completed value keeps the
completed count. -/
theorem completedCount_set_of_ne (l : List StepState) :
    ∀ i a v, l.get? i = some a → a ≠ .completedP → v ≠ .completedP →
    completedCount (l.set i v) = completedCount l := by
  induction l with
  | nil => intro i a v h _ _; simp at h
  | cons x xs ih =>
    intro i a v h ha hv
    cases i with
    | zero =>
      have hx : a = x := by simpa using h.symm
      subst hx
      simp [completedCount, List.set, ha, hv]
    | succ i' =>
      have h' : xs.get? i' = some a := by simpa using h
      simp [completedCount, List.set, ih i' a v h' ha hv]

/-- Completing a not-yet-completed slot raises the completed count by
one. -/
theorem completedCount_set_complete (l : List StepState) :
    ∀ i a, l.get? i = some a → a ≠ .completedP →
    completedCount (l.set i .completedP) = completedCount l + 1 := by
  induction l with
  | nil => intro i a h _; simp at h
  | cons x xs ih =>
    intro i a h ha
    cases i with
    | zero =>
      have hx : a = x := by simpa using h.symm
      subst hx
      simp [completedCount, List.set, ha]
    | succ i' =>
      have h' : xs.get? i' = some a := by simpa using h
      simp [completedCount, List.set, ih i' a h' ha]
      omega

/-- Completing a running step does not decrease the progress formula. -/
theorem progressOf_set_complete_mono (l : List StepState) (i : Nat)
    (h : l.get? i = some .runningP) :
    progressOf l ≤ progressOf (l.set i .completedP) := by
  unfold progressOf
  rw [List.length_set, completedCount_set_complete l i .runningP h (by decide)]
  exact Nat.div_le_div_right (Nat.mul_le_mul_right _ (Nat.le_succ _))

/-- No transition leaves a terminal job. -/
theorem jobTr_src_not_terminal {j j' : PJob} (h : JobTr j j') :
    j.status.isTerminal = false := by
  cases h with
  | enqueue => rfl
  | claim => rfl
  | startStep => rfl
  | completeStep => rfl
  | failStep => rfl
  | finish => rfl
  | cancelTr st steps p hc => rw [Status.terminal_eq_not_cancellable, hc]; rfl

/-- Every transition preserves consistency of the recorded progress. -/
theorem jobTr_consistent {j j' : PJob} (h : JobTr j j') (hc : Consistent j) :
    Consistent j' := by
  cases h with
  | enqueue steps p => exact hc
  | claim steps p => exact hc
  | startStep steps p i hi =>
    show p = progressOf (steps.set i .runningP)
    unfold progressOf
    rw [List.length_set,
      completedCount_set_of_ne steps i .pendingP .runningP hi (by decide) (by decide)]
    exact hc
  | completeStep steps p i hi => rfl
  | failStep steps p i hi =>
    show p = progressOf (steps.set i .failedP)
    unfold progressOf
    rw [List.length_set,
      completedCount_set_of_ne steps i .runningP .failedP hi (by decide) (by decide)]
    exact hc
  | finish steps p hall => exact hc
  | cancelTr st steps p hcc => exact hc

/-- Every transition of a consistent job is non-decreasing in the
recorded progress percentage. -/
theorem jobTr_progress_mono {j j' : PJob} (h : JobTr j j') (hc : Consistent j) :
    j.progressPercentage ≤ j'.progressPercentage := by
  cases h with
  | enqueue steps p => exact Nat.le_refl p
  | claim steps p => exact Nat.le_refl p
  | startStep steps p i hi => exact Nat.le_refl p
  | completeStep steps p i hi =>
    show p ≤ progressOf (steps.set i .completedP)
    rw [show p = progressOf steps from hc]
    exact progressOf_set_complete_mono steps i hi
  | failStep steps p i hi => exact Nat.le_refl p
  | finish steps p hall => exact Nat.le_refl p
  | cancelTr st steps p hcc => exact Nat.le_refl p

/-- C2: along any observation trace of a job starting consistent, the
recorded progress percentage always equals completed steps over total
steps times 100, the observed progress sequence is non-decreasing, and
once the job is terminal its record never changes again. -/
theorem progress_monotone_until_terminal (f : Nat → PJob) (htr : JobTrace f)
    (hc0 : Consistent (f 0)) :
    (∀ n, (f n).progressPercentage
        = completedCount (f n).steps * 100 / (f n).steps.length) ∧
    (∀ m n, m ≤ n → (f m).progressPercentage ≤ (f n).progressPercentage) ∧
    (∀ n, (f n).status.isTerminal = true → f (n + 1) = f n) := by
  have hcn : ∀ n, Consistent (f n) := by
    intro n
    induction n with
    | zero => exact hc0
    | succ m ih =>
      rcases htr m with h | h
      · exact jobTr_consistent h ih
      · rw [h]; exact ih
  have hstep : ∀ n, (f n).progressPercentage ≤ (f (n + 1)).progressPercentage := by
    intro n
    rcases htr n with h | h
    · exact jobTr_progress_mono h (hcn n)
    · rw [h]
  refine ⟨fun n => hcn n, ?_, ?_⟩
  · intro m n hmn
    induction n, hmn using Nat.le_induction with
    | base => exact Nat.le_refl _
    | succ n hn ih => exact Nat.le_trans ih (hstep n)
  · intro n ht
    rcases htr n with h | h
    · have := jobTr_src_not_terminal h
      rw [this] at ht
      exact absurd ht (by decide)
    · exact h

/-- Witness for C2 on a concrete trace: one completeStep transition then
stutter; the progress percentage moves from 0 to 100, non-decreasing,
and the record stays consistent. -/
theorem progress_monotone_until_terminal_witness :
    ((fun n => match n with
        | 0 => (⟨.processing, [.runningP], 0⟩ : PJob)
        | _ + 1 => ⟨.processing, [.completedP], 100⟩) 0).progressPercentage
      ≤ ((fun n => match n with
        | 0 => (⟨.processing, [.runningP], 0⟩ : PJob)
        | _ + 1 => ⟨.processing, [.completedP], 100⟩) 3).progressPercentage ∧
    ((fun n => match n with
        | 0 => (⟨.processing, [.runningP], 0⟩ : PJob)
        | _ + 1 => ⟨.processing, [.completedP], 100⟩) 1).progressPercentage
      = completedCount ((fun n => match n with
        | 0 => (⟨.processing, [.runningP], 0⟩ : PJob)
        | _ + 1 => ⟨.processing, [.completedP], 100⟩) 1).steps * 100
          / ((fun n => match n with
        | 0 => (⟨.processing, [.runningP], 0⟩ : PJob)
        | _ + 1 => ⟨.processing, [.completedP], 100⟩) 1).steps.length := by
  have h := progress_monotone_until_terminal
    (fun n => match n with
      | 0 => (⟨.processing, [.runningP], 0⟩ : PJob)
      | _ + 1 => ⟨.processing, [.completedP], 100⟩)
    (fun n => by
      match n with
      | 0 => exact Or.inl (JobTr.completeStep [.runningP] 0 0 rfl)
      | m + 1 => exact Or.inr rfl)
    rfl
  exact ⟨h.2.1 0 3 (by decide), h.1 1⟩

end Progress


namespace Sched

open SnapValue
open Pipeline (Priority)

/-- No entry is served strictly before itself. -/
theorem preferred_irrefl (a : QEntry) : ¬ Preferred a a := by
  intro h
  rcases h with h | ⟨_, h⟩ <;> omega

/-- The service order is asymmetric. -/
theorem preferred_asymm {a b : QEntry} (h : Preferred a b) : ¬ Preferred b a := by
  intro h2
  rcases h with h | ⟨he, ht⟩ <;> rcases h2 with h2 | ⟨he2, ht2⟩ <;> omega

/-- Not-served-before is transitive. -/
theorem preferred_notrans {x b e : QEntry} (h1 : ¬ Preferred x b)
    (h2 : ¬ Preferred b e) : ¬ Preferred x e := by
  intro h3
  unfold Preferred at h1 h2 h3
  push_neg at h1 h2
  obtain ⟨h1a, h1b⟩ := h1
  obtain ⟨h2a, h2b⟩ := h2
  rcases h3 with h | ⟨heq, ht⟩
  · omega
  · have hxb : x.priority.rank = b.priority.rank := by omega
    have h1b' := h1b hxb
    have h2b' := h2b (by omega)
    omega

/-- pickBest returns a member of its list. -/
theorem pickBest_mem : ∀ (l : List QEntry) (e : QEntry),
    pickBest l = some e → e ∈ l := by
  intro l
  induction l with
  | nil => intro e h; simp [pickBest] at h
  | cons x xs ih =>
    intro e h
    cases hb : pickBest xs with
    | none =>
      simp only [pickBest, hb] at h
      have hxe : x = e := by injection h
      rw [← hxe]
      exact List.mem_cons_self x xs
    | some b =>
      simp only [pickBest, hb] at h
      by_cases hp : Preferred b x
      · rw [if_pos hp] at h
        have hbe : b = e := by injection h
        rw [← hbe]
        exact List.mem_cons_of_mem x (ih b hb)
      · rw [if_neg hp] at h
        have hxe : x = e := by injection h
        rw [← hxe]
        exact List.mem_cons_self x xs

/-- pickBest is none only on the empty list. -/
theorem pickBest_eq_none : ∀ l : List QEntry, pickBest l = none → l = [] := by
  intro l h
  cases l with
  | nil => rfl
  | cons x xs =>
    exfalso
    cases hb : pickBest xs with
    | none =>
      simp only [pickBest, hb] at h
      exact Option.noConfusion h
    | some b =>
      simp only [pickBest, hb] at h
      by_cases hp : Preferred b x
      · rw [if_pos hp] at h; exact Option.noConfusion h
      · rw [if_neg hp] at h; exact Option.noConfusion h

/-- pickBest returns a maximal entry: nothing in the list is served
strictly before it. -/
theorem pickBest_maximal : ∀ (l : List QEntry) (e : QEntry),
    pickBest l = some e → ∀ x ∈ l, ¬ Preferred x e := by
  intro l
  induction l with
  | nil => intro e h x hx; simp at hx
  | cons a as ih =>
    intro e h x hx
    cases hb : pickBest as with
    | none =>
      simp only [pickBest, hb] at h
      have hae : a = e := by injection h
      have hnil : as = [] := pickBest_eq_none as hb
      subst hnil
      have hxa : x = a := by simpa using hx
      rw [hxa, ← hae]
      exact preferred_irrefl a
    | some b =>
      simp only [pickBest, hb] at h
      by_cases hp : Preferred b a
      · rw [if_pos hp] at h
        have hbe : b = e := by injection h
        rw [← hbe]
        rcases List.mem_cons.mp hx with hxa | hxs
        · rw [hxa]; exact preferred_asymm hp
        · exact ih b hb x hxs
      · rw [if_neg hp] at h
        have hae : a = e := by injection h
        rw [← hae]
        rcases List.mem_cons.mp hx with hxa | hxs
        · rw [hxa]; exact preferred_irrefl a
        · exact preferred_notrans (ih b hb x hxs) hp

/-- Decomposition of a successful claimNext: the popped entry is the
pickBest of the eligible entries, and the post state is the one-point
status update with the entry's job removed from the queue. -/
theorem claimNext_shape (s : SchedState) (e : QEntry) (s' : SchedState)
    (h : claimNext s = some (e, s')) :
    pickBest (s.queue.filter (eligible s)) = some e ∧
    s' = ⟨fun j => if j = e.jobId then some .processing else s.jobStatus j,
          (s.queue.filter (eligible s)).filter (fun q => q.jobId ≠ e.jobId)⟩ := by
  unfold claimNext at h
  cases hb : pickBest (s.queue.filter (eligible s)) with
  | none => rw [hb] at h; exact Option.noConfusion h
  | some b =>
    rw [hb] at h
    injection h with hpair
    injection hpair with h1 h2
    subst h1
    subst h2
    exact ⟨rfl, rfl⟩

/-- The claimed job was queued before the claim. -/
theorem claimNext_src (s : SchedState) (e : QEntry) (s' : SchedState)
    (h : claimNext s = some (e, s')) :
    s.jobStatus e.jobId = some .queued := by
  have hp := (claimNext_shape s e s' h).1
  have hmem := pickBest_mem _ e hp
  have hel := (List.mem_filter.mp hmem).2
  simpa [eligible] using hel

/-- The claimed job is processing after the claim. -/
theorem claimNext_dst (s : SchedState) (e : QEntry) (s' : SchedState)
    (h : claimNext s = some (e, s')) :
    s'.jobStatus e.jobId = some .processing := by
  rw [(claimNext_shape s e s' h).2]
  simp

/-- The claimed entry is removed from the queue by the claim. -/
theorem claimNext_queue (s : SchedState) (e : QEntry) (s' : SchedState)
    (h : claimNext s = some (e, s')) :
    ∀ q ∈ s'.queue, q.jobId ≠ e.jobId := by
  rw [(claimNext_shape s e s' h).2]
  intro q hq
  have := (List.mem_filter.mp hq).2
  exact of_decide_eq_true this

/-- Every status rank is at most 4. -/
theorem statusRank_le_four (o : Option Status) : statusRank o ≤ 4 := by
  rcases o with _ | st
  · decide
  · cases st <;> decide

/-- Every atomic step is non-decreasing in every job's status rank. -/
theorem schedStep_rank_mono {s s' : SchedState} {ev : Event}
    (h : SchedStep s ev s') (j : Nat) :
    statusRank (s.jobStatus j) ≤ statusRank (s'.jobStatus j) := by
  cases h
  case create =>
    rename_i j0 h0
    by_cases hj : j = j0
    · subst hj
      rw [h0]
      simp [setStatus, statusRank]
    · simp [setStatus, hj]
  case enqueueEv =>
    rename_i j0 p t h0
    by_cases hj : j = j0
    · subst hj
      rw [h0]
      simp [setStatus, statusRank]
    · simp [setStatus, hj]
  case claim =>
    rename_i w e hcl
    rw [(claimNext_shape _ e _ hcl).2]
    by_cases hj : j = e.jobId
    · subst hj
      rw [claimNext_src _ e _ hcl]
      simp [statusRank]
    · simp [hj]
  case complete =>
    rename_i j0 h0
    by_cases hj : j = j0
    · subst hj
      rw [h0]
      simp [setStatus, statusRank]
    · simp [setStatus, hj]
  case fail =>
    rename_i j0 h0
    by_cases hj : j = j0
    · subst hj
      rw [h0]
      simp [setStatus, statusRank]
    · simp [setStatus, hj]
  case cancelEv =>
    rename_i j0 st h0 hcc
    by_cases hj : j = j0
    · subst hj
      rw [h0]
      have h4 : statusRank (setStatus s.jobStatus j .cancelled j) = 4 := by
        simp [setStatus, statusRank]
      rw [h4]
      exact statusRank_le_four (some st)
    · simp [setStatus, hj]

/-- Reachability is non-decreasing in every job's status rank. -/
theorem reach_rank_mono {s s'' : SchedState} {tr : List Event}
    (h : Reach s tr s'') (j : Nat) :
    statusRank (s.jobStatus j) ≤ statusRank (s''.jobStatus j) := by
  induction h with
  | nil s => exact Nat.le_refl _
  | cons s s' s'' e tr hs hr ih => exact Nat.le_trans (schedStep_rank_mono hs j) ih

/-- A claim step requires the job queued before and leaves it processing
after. -/
theorem claim_pre {s s' : SchedState} {w j : Nat}
    (h : SchedStep s (.claim w j) s') :
    s.jobStatus j = some .queued ∧ s'.jobStatus j = some .processing := by
  cases h
  rename_i e hcl
  exact ⟨claimNext_src _ e _ hcl, claimNext_dst _ e _ hcl⟩

/-- Once a job's rank is at least processing, no later event in the
trace claims it. -/
theorem claims_zero_of_processing {j : Nat} : ∀ {s s'' : SchedState}
    {tr : List Event}, Reach s tr s'' →
    3 ≤ statusRank (s.jobStatus j) → claimsOf j tr = 0 := by
  intro s s'' tr h
  induction h with
  | nil s => intro _; rfl
  | cons s s' s'' e tr hs hr ih =>
    intro hrank
    have hne : isClaimOf j e = false := by
      cases e with
      | create j0 => rfl
      | enqueueEv j0 p t => rfl
      | claim w j0 =>
        by_cases hj : j0 = j
        · subst hj
          have := (claim_pre hs).1
          rw [this] at hrank
          exact absurd hrank (by decide)
        · simp [isClaimOf, hj]
      | complete j0 => rfl
      | fail j0 => rfl
      | cancelEv j0 => rfl
    have hcount : claimsOf j (e :: tr) = claimsOf j tr := by
      unfold claimsOf
      rw [List.countP_cons_of_neg]
      rw [hne]
      exact Bool.false_ne_true
    rw [hcount]
    exact ih (Nat.le_trans hrank (schedStep_rank_mono hs j))

/-- Along any trace, each job is claimed at most once. -/
theorem claims_at_most_one {j : Nat} : ∀ {s s'' : SchedState}
    {tr : List Event}, Reach s tr s'' → claimsOf j tr ≤ 1 := by
  intro s s'' tr h
  induction h with
  | nil s => exact Nat.zero_le 1
  | cons s s' s'' e tr hs hr ih =>
    by_cases hc : isClaimOf j e = true
    · have hzero : claimsOf j tr = 0 := by
        apply claims_zero_of_processing hr
        cases e with
        | claim w j0 =>
          have hj : j0 = j := by simpa [isClaimOf] using hc
          subst hj
          rw [(claim_pre hs).2]
          decide
        | create j0 => exact absurd hc (by simp [isClaimOf])
        | enqueueEv j0 p t => exact absurd hc (by simp [isClaimOf])
        | complete j0 => exact absurd hc (by simp [isClaimOf])
        | fail j0 => exact absurd hc (by simp [isClaimOf])
        | cancelEv j0 => exact absurd hc (by simp [isClaimOf])
      unfold claimsOf
      rw [List.countP_cons_of_pos _ _ hc]
      unfold claimsOf at hzero
      rw [hzero]
    · have hcount : claimsOf j (e :: tr) = claimsOf j tr := by
        unfold claimsOf
        rw [List.countP_cons_of_neg _ _ hc]
      rw [hcount]
      exact ih

/-- C1: claim_next atomically pops the highest-priority, oldest-enqueued
eligible entry and transitions its job queued to processing in that one
step, and along any interleaving of atomic events — any trace — at most
one claim event ever occurs for a given job, so no two workers can claim
the same job. -/
theorem claim_exclusive_and_best (s0 sEnd s s1 : SchedState)
    (tr : List Event) (j : Nat) (e : QEntry)
    (hreach : Reach s0 tr sEnd) (hclaim : claimNext s = some (e, s1)) :
    claimsOf j tr ≤ 1 ∧
    (s.jobStatus e.jobId = some .queued ∧
      s1.jobStatus e.jobId = some .processing) ∧
    (e ∈ s.queue ∧ eligible s e = true ∧
      ∀ x ∈ s.queue, eligible s x = true → ¬ Preferred x e) ∧
    (∀ q ∈ s1.queue, q.jobId ≠ e.jobId) := by
  have hp := (claimNext_shape s e s1 hclaim).1
  have hmem := pickBest_mem _ e hp
  refine ⟨claims_at_most_one hreach,
    ⟨claimNext_src s e s1 hclaim, claimNext_dst s e s1 hclaim⟩,
    ⟨(List.mem_filter.mp hmem).1, (List.mem_filter.mp hmem).2, ?_⟩,
    claimNext_queue s e s1 hclaim⟩
  intro x hx hel
  exact pickBest_maximal _ e hp x (List.mem_filter.mpr ⟨hx, hel⟩)

/-- Witness for C1 at a concrete one-claim trace and a concrete queued
state: the single claim event count is at most one, and the claimed
entry is the (only) eligible queue entry. -/
theorem claim_exclusive_and_best_witness :
    claimsOf 1 [Event.claim 7 1] ≤ 1 ∧
    (⟨1, Pipeline.Priority.normal, 0⟩ : QEntry) ∈
      (⟨fun j => if j = 1 then some Status.queued else none,
        [⟨1, Pipeline.Priority.normal, 0⟩]⟩ : SchedState).queue ∧
    eligible ⟨fun j => if j = 1 then some Status.queued else none,
        [⟨1, Pipeline.Priority.normal, 0⟩]⟩ ⟨1, Pipeline.Priority.normal, 0⟩
      = true := by
  have h := claim_exclusive_and_best
    ⟨fun j => if j = 1 then some Status.queued else none,
      [⟨1, Pipeline.Priority.normal, 0⟩]⟩
    _
    ⟨fun j => if j = 1 then some Status.queued else none,
      [⟨1, Pipeline.Priority.normal, 0⟩]⟩
    _ [Event.claim 7 1] 1 ⟨1, Pipeline.Priority.normal, 0⟩
    (Reach.cons _ _ _ _ _
      (SchedStep.claim _ _ 7 ⟨1, Pipeline.Priority.normal, 0⟩ rfl)
      (Reach.nil _))
    rfl
  exact ⟨h.1, h.2.2.1.1, h.2.2.1.2.1⟩

end Sched
